import Mathlib

/-!
Shallow embedding of the dividend stock analyzer core (streamlit_app.py)
and proofs about it.

Modelling conventions: Python floats are modelled as rationals; dividend
payment dates are modelled by their calendar year (a natural number; real
dates always have year at least 1, so year 0 never occurs in data).
Network fetches are modelled by passing their already-parsed results as
parameters; every pure computation is translated directly.
-/

/-- REGIONAL_CRITERIA entry: the named threshold set of the app
(streamlit_app.py lines 115-143). -/
structure RegionalCriteria where
  dividend_increases_min : Nat
  shares_outstanding_min : ℚ
  institutional_holders_min : Nat
  eps_increases_min : Nat
  consecutive_dividend_min : Nat
  required_status : List String
  description : String

/-- The USD entry of REGIONAL_CRITERIA. -/
def usdCriteria : RegionalCriteria :=
  { dividend_increases_min := 5
    shares_outstanding_min := 5
    institutional_holders_min := 5
    eps_increases_min := 4
    consecutive_dividend_min := 10
    required_status := []
    description := "Practical criteria for US dividend stocks" }

/-- The GBP entry of REGIONAL_CRITERIA. -/
def gbpCriteria : RegionalCriteria :=
  { dividend_increases_min := 5
    shares_outstanding_min := 50
    institutional_holders_min := 5
    eps_increases_min := 4
    consecutive_dividend_min := 10
    required_status := []
    description := "Practical criteria for UK dividend stocks" }

/-- The CAD entry of REGIONAL_CRITERIA. -/
def cadCriteria : RegionalCriteria :=
  { dividend_increases_min := 5
    shares_outstanding_min := 10
    institutional_holders_min := 5
    eps_increases_min := 4
    consecutive_dividend_min := 10
    required_status := []
    description := "Practical criteria for Canadian dividend stocks" }

/-- The REGIONAL_CRITERIA dictionary, as a lookup by currency code. -/
def REGIONAL_CRITERIA (currency : String) : Option RegionalCriteria :=
  if currency = "USD" then some usdCriteria
  else if currency = "GBP" then some gbpCriteria
  else if currency = "CAD" then some cadCriteria
  else none

/-- get_regional_criteria (lines 145-160): looks up the base thresholds for
the currency, falling back to the USD entry for unknown currencies, and in
Aggressive mode relaxes every threshold by a fixed rule: count thresholds
lose a fixed offset but are floored (via max) at a fixed minimum, and the
shares-outstanding threshold is multiplied by 0.4. -/
def get_regional_criteria (currency : String) (screening_mode : String) : RegionalCriteria :=
  let base_criteria := (REGIONAL_CRITERIA currency).getD usdCriteria
  if screening_mode = "Aggressive" then
    { dividend_increases_min := max (base_criteria.dividend_increases_min - 2) 3
      shares_outstanding_min := base_criteria.shares_outstanding_min * 0.4
      institutional_holders_min := max (base_criteria.institutional_holders_min - 2) 3
      eps_increases_min := max (base_criteria.eps_increases_min - 2) 3
      consecutive_dividend_min := max (base_criteria.consecutive_dividend_min - 5) 5
      required_status := []
      description := base_criteria.description ++ " (Aggressive)" }
  else
    base_criteria

/-- A dividend series: (payment year, amount) pairs. The source iterates
dividends.items() whose keys are dates; only the calendar year of each date
is ever used, so dates are modelled by their year. -/
abbrev DividendSeries := List (Nat × ℚ)

/-- Whether some payment of the series falls in the given year, that is,
whether the year is a key of the annual_dividends dictionary built from the
series. -/
def hasYear (dividends : DividendSeries) (year : Nat) : Bool :=
  dividends.any (fun p => p.1 == year)

/-- The annual_dividends value for one year: the sum of all payments whose
date falls in that year. -/
def annualTotal (dividends : DividendSeries) (year : Nat) : ℚ :=
  (dividends.filter (fun p => p.1 == year)).foldl (fun acc p => acc + p.2) 0

/-- The adjacent-pair increase count: walking a list of totals in order,
count the positions where the next total strictly exceeds the current one.
This is the loop body shared by the dividend-increase counter (lines
489-491) and, run over a descending year list, by the EPS counters. -/
def countAdjIncreases : List ℚ → Nat
  | a :: b :: rest => (if a < b then 1 else 0) + countAdjIncreases (b :: rest)
  | _ => 0

/-- The sorted list of years that both lie in the 12-year window
[current_year - 12, current_year) and have at least one payment: exactly
sorted(annual_dividends.keys()) of the source, since the dictionary is
restricted to years_to_check = range(current_year - 12, current_year).
Years are naturals; the filter on y < current_year makes the window agree
with the source for every current_year (for current_year at least 12 the
candidates are precisely current_year - 12 .. current_year - 1). -/
def windowYears (dividends : DividendSeries) (current_year : Nat) : List Nat :=
  ((List.range 12).map (fun k => current_year - 12 + k)).filter
    (fun y => decide (y < current_year) && hasYear dividends y)

/-- calculate_dividend_increases (lines 471-495): bucket payments of the
last 12 calendar years by year, sort the present years ascending and count
adjacent-year pairs whose later total strictly exceeds the earlier one. -/
def calculate_dividend_increases (dividends : DividendSeries) (current_year : Nat) : Nat :=
  if dividends = [] then 0
  else countAdjIncreases ((windowYears dividends current_year).map (annualTotal dividends))

/-- Whether a year is a key of annual_dividends with a strictly positive
total: the loop guard of the consecutive-years walk (line 513). -/
def yearPositive (dividends : DividendSeries) (year : Nat) : Bool :=
  hasYear dividends year && decide (0 < annualTotal dividends year)

/-- The backward walk of calculate_consecutive_dividend_years: starting at
the given year, count how many consecutive years (walking down) are present
with a positive total. Year 0 stops the walk; real dates never have year 0,
so this agrees with the source loop on all representable data. -/
def consecFrom (dividends : DividendSeries) : Nat → Nat
  | 0 => 0
  | y + 1 => if yearPositive dividends (y + 1) then consecFrom dividends y + 1 else 0

/-- calculate_consecutive_dividend_years (lines 497-519): from
current_year - 1 walk backward while the year has a positive annual total;
an empty series returns 0. -/
def calculate_consecutive_dividend_years (dividends : DividendSeries) (current_year : Nat) : Nat :=
  if dividends = [] then 0 else consecFrom dividends (current_year - 1)

/-- Python max over a nonempty list, as a fold from the head. -/
def listMax : List ℚ → ℚ
  | [] => 0
  | x :: xs => xs.foldl max x

/-- Python min over a nonempty list, as a fold from the head. -/
def listMin : List ℚ → ℚ
  | [] => 0
  | x :: xs => xs.foldl min x

/-- The yields list comprehension of line 529: the yield
annual_dividend / price * 100 for every strictly positive price of the
series, in series order. -/
def yieldsOf (prices : List ℚ) (annual_dividend : ℚ) : List ℚ :=
  (prices.filter (fun p => decide (0 < p))).map (fun p => annual_dividend / p * 100)

/-- calculate_historical_yields (lines 521-535): over the 5-year close
price series, the yield annual_dividend / price * 100 is computed for every
positive price; the result is (max, min) over those yields, and (0, 0) when
the price series is empty, the annual dividend is 0, or no price is
positive. The price history fetch is external; the function takes the close
price list directly. -/
def calculate_historical_yields (prices : List ℚ) (annual_dividend : ℚ) : ℚ × ℚ :=
  if prices = [] ∨ annual_dividend = 0 then (0, 0)
  else
    let yields := yieldsOf prices annual_dividend
    if yields = [] then (0, 0) else (listMax yields, listMin yields)

/-- determine_dividend_status (lines 537-548). -/
def determine_dividend_status (consecutive_years : Nat) : String :=
  if 50 ≤ consecutive_years then "Dividend King"
  else if 25 ≤ consecutive_years then "Dividend Aristocrat"
  else if 10 ≤ consecutive_years then "Dividend Achiever"
  else if 5 ≤ consecutive_years then "Dividend Contender"
  else "None"

/-- The stock_data dictionary consumed by analyze_stock (built by
fetch_stock_data, lines 452-466). -/
structure StockData where
  ticker : String
  company_name : String
  current_price : ℚ
  annual_dividend : ℚ
  shares_outstanding : ℚ
  institutional_holders : Nat
  dividend_increases : Nat
  consecutive_years : Nat
  hist_high_yield : ℚ
  hist_low_yield : ℚ
  eps_increases : Nat
  dividend_status : String
  currency : String

/-- The dictionary returned by analyze_stock (lines 621-632). The
diagnostic message of each failed criterion is abbreviated to the criterion
name; only membership and count of the failed list are scoring-relevant. -/
structure AnalysisResult where
  quality_ok : Bool
  passed_criteria : List String
  failed_criteria : List String
  current_yield : ℚ
  buy_yield : ℚ
  watch_yield : ℚ
  sell_yield : ℚ
  recommendation : String
  zone : String
  criteria : RegionalCriteria

/-- analyze_stock (lines 554-632): evaluate the five required criteria in
order, record the sixth (dividend status) as always passed, derive the
yield bands from the historical yield range, pick the recommendation by the
ordered yield tests, and force DOES NOT QUALIFY whenever any required
criterion failed. -/
def analyze_stock (stock_data : StockData) (screening_mode : String) : AnalysisResult :=
  let criteria := get_regional_criteria stock_data.currency screening_mode
  let checks : List (String × Bool) :=
    [("Dividend Increases", decide (criteria.dividend_increases_min ≤ stock_data.dividend_increases)),
     ("Shares Outstanding", decide (criteria.shares_outstanding_min ≤ stock_data.shares_outstanding)),
     ("Institutional Holders", decide (criteria.institutional_holders_min ≤ stock_data.institutional_holders)),
     ("EPS Increases", decide (criteria.eps_increases_min ≤ stock_data.eps_increases)),
     ("Consecutive Dividend Years", decide (criteria.consecutive_dividend_min ≤ stock_data.consecutive_years))]
  let passed_criteria := (checks.filter (fun c => c.2)).map Prod.fst ++ ["Dividend Status (Optional)"]
  let failed_criteria := (checks.filter (fun c => !c.2)).map Prod.fst
  let quality_ok : Bool := failed_criteria.length == 0
  let current_yield : ℚ :=
    if 0 < stock_data.current_price then stock_data.annual_dividend / stock_data.current_price * 100
    else 0
  let buy_yield := stock_data.hist_high_yield * 0.80
  let watch_yield := stock_data.hist_high_yield * 0.70
  let sell_yield := stock_data.hist_low_yield * 1.20
  let valuation_rz : String × String :=
    if buy_yield ≤ current_yield then ("BUY", "Buy Zone")
    else if watch_yield ≤ current_yield then ("WATCH", "Watch Zone")
    else if current_yield ≤ sell_yield then ("SELL", "Sell Zone")
    else ("HOLD", "Hold Zone")
  let final_rz : String × String :=
    if quality_ok then valuation_rz else ("DOES NOT QUALIFY", "Failed Quality")
  { quality_ok := quality_ok
    passed_criteria := passed_criteria
    failed_criteria := failed_criteria
    current_yield := current_yield
    buy_yield := buy_yield
    watch_yield := watch_yield
    sell_yield := sell_yield
    recommendation := final_rz.1
    zone := final_rz.2
    criteria := criteria }

/-- One entry of a companyfacts EPS unit list as used by
fetch_sec_edgar_eps_increases: its filing form, its fiscal year when the
fy key is present, and its reported value (entry.get with default 0). -/
structure SECEntry where
  form : String
  fy : Option Nat
  val : ℚ

/-- Dictionary lookup on the annual_eps association list: the value stored
for a year, if the year is a key. -/
def lookupYear : List (Nat × ℚ) → Nat → Option ℚ
  | [], _ => none
  | p :: m, y => if p.1 = y then some p.2 else lookupYear m y

/-- Dictionary update annual_eps[year] = val on a present key: replace the
value stored at that year, leaving all other keys untouched. -/
def setYear : List (Nat × ℚ) → Nat → ℚ → List (Nat × ℚ)
  | [], _, _ => []
  | p :: m, y, v => if p.1 = y then (y, v) :: setYear m y v else p :: setYear m y v

/-- The body of line 265: a new fiscal year is appended to the dictionary,
and a duplicate fiscal year overwrites the stored value only when the
incoming absolute magnitude is strictly larger. -/
def insertAnnual (m : List (Nat × ℚ)) (year : Nat) (val : ℚ) : List (Nat × ℚ) :=
  match lookupYear m year with
  | none => m ++ [(year, val)]
  | some v => if |v| < |val| then setYear m year val else m

/-- The loop body of lines 261-266: an entry contributes only if its form
is 10-K and it carries a fiscal year. -/
def updateAnnualEps (m : List (Nat × ℚ)) (e : SECEntry) : List (Nat × ℚ) :=
  if e.form = "10-K" then
    match e.fy with
    | some year => insertAnnual m year e.val
    | none => m
  else m

/-- The annual_eps dictionary of lines 260-266, built over all entries in
order. -/
def annualEps (entries : List SECEntry) : List (Nat × ℚ) :=
  entries.foldl updateAnnualEps []

/-- Insert a year into a descending-sorted list, keeping it descending. -/
def insertDesc (y : Nat) : List Nat → List Nat
  | [] => [y]
  | x :: xs => if x ≤ y then y :: x :: xs else x :: insertDesc y xs

/-- Python sorted(keys, reverse=True): sort a year list descending. -/
def sortDesc : List Nat → List Nat
  | [] => []
  | y :: ys => insertDesc y (sortDesc ys)

/-- The counting loop of lines 275-279: walking a value list in the given
(descending-year) order, count the positions where the current value
strictly exceeds the next one. -/
def descPairCount : List ℚ → Nat
  | a :: b :: rest => (if b < a then 1 else 0) + descPairCount (b :: rest)
  | _ => 0

/-- fetch_sec_edgar_eps_increases, processing part (lines 259-281): build
the annual_eps dictionary from the already-parsed EPS unit entries, yield
no data when fewer than two distinct fiscal years were found, otherwise
keep the 12 most recent fiscal years (sorted descending) and count the
strictly-increasing adjacent pairs in chronological order. The CIK lookup
and the companyfacts HTTP fetch (lines 219-257) are external collaborators;
the function takes the entry list they deliver. -/
def fetch_sec_edgar_eps_increases (entries : List SECEntry) : Option Nat :=
  let annual_eps := annualEps entries
  if annual_eps.length < 2 then none
  else
    let years := (sortDesc (annual_eps.map Prod.fst)).take 12
    some (descPairCount (years.map (fun y => (lookupYear annual_eps y).getD 0)))

/-- fetch_yfinance_eps_increases (lines 365-374): the provider earnings
history only exposes a few recent quarters, so the source returns None
unconditionally. -/
def fetch_yfinance_eps_increases : Option Nat := none

/-- fetch_eps_increases_multi_source (lines 376-416): the ordered fallback
chain. The SEC EDGAR and Macrotrends stages are network fetches whose
results are passed in as parameters; the first stage runs only when a
provider handle exists, and the heuristic stage estimates from the
dividend series when its 12-year increase count is at least 3. The source
computes int(dividend_increases * 0.7) on floats; for every count d up to
19 (the 12-year window bounds the count by 11) that equals d * 7 / 10 in
natural division, which is used here. -/
def fetch_eps_increases_multi_source (has_stock : Bool)
    (sec_edgar_result macrotrends_result : Option Nat)
    (dividends : DividendSeries) (current_year : Nat) : Nat × String :=
  match (if has_stock then fetch_yfinance_eps_increases else none) with
  | some n => (n, "yfinance")
  | none =>
    match sec_edgar_result with
    | some n => (n, "SEC EDGAR")
    | none =>
      match macrotrends_result with
      | some n => (n, "Macrotrends")
      | none =>
        if has_stock = true ∧ dividends ≠ [] then
          let dividend_increases := calculate_dividend_increases dividends current_year
          if 3 ≤ dividend_increases then
            (max 3 (dividend_increases * 7 / 10), "Estimated from dividends")
          else (0, "No data available")
        else (0, "No data available")

/-- A concrete quality-passing stock whose historical yield range is
(0, 0): the empty-price-series / zero-dividend fallback of
calculate_historical_yields, fed into analyze_stock. -/
def zeroRangeStock : StockData :=
  { ticker := "DEMO", company_name := "Demo Corp", current_price := 100
    annual_dividend := 2, shares_outstanding := 10, institutional_holders := 6
    dividend_increases := 6, consecutive_years := 12, hist_high_yield := 0
    hist_low_yield := 0, eps_increases := 5, dividend_status := "Dividend Achiever"
    currency := "USD" }

/-- A concrete stock that fails exactly one required criterion (EPS
increases) while pricing into the BUY yield band. -/
def epsFailingStock : StockData :=
  { ticker := "FAIL", company_name := "Failing Corp", current_price := 100
    annual_dividend := 5, shares_outstanding := 10, institutional_holders := 6
    dividend_increases := 6, consecutive_years := 12, hist_high_yield := 5
    hist_low_yield := 2, eps_increases := 0, dividend_status := "Dividend Achiever"
    currency := "USD" }

/-- A concrete stock that passes all five required criteria. -/
def qualityPassingStock : StockData :=
  { ticker := "PASS", company_name := "Passing Corp", current_price := 100
    annual_dividend := 3, shares_outstanding := 10, institutional_holders := 6
    dividend_increases := 6, consecutive_years := 12, hist_high_yield := 4
    hist_low_yield := 2, eps_increases := 5, dividend_status := "Dividend Achiever"
    currency := "USD" }

/-- A dividend series with exactly ten consecutive positive annual
payments in 2014 .. 2023 and nothing in 2013. -/
def tenYearSeries : DividendSeries :=
  [(2014, 1), (2015, 1), (2016, 1), (2017, 1), (2018, 1),
   (2019, 1), (2020, 1), (2021, 1), (2022, 1), (2023, 1)]

/-- A dividend series whose 12-year increase count at reference year 2024
is 5. -/
def risingSeries : DividendSeries :=
  [(2013, 1), (2014, 2), (2015, 3), (2016, 4), (2017, 5), (2018, 6)]

/-- Concrete parsed companyfacts EPS entries: two 10-K fiscal years plus a
10-Q entry that the annual filter must drop. -/
def demoEntries : List SECEntry :=
  [{ form := "10-K", fy := some 2020, val := 1 },
   { form := "10-K", fy := some 2021, val := 2 },
   { form := "10-Q", fy := some 2022, val := 9 }]

/-- C1: for every stock-data input and screening mode, whenever
analyze_stock computes quality_ok = false (some required criterion
failed), the returned recommendation is DOES NOT QUALIFY, regardless of
where the current yield sits relative to the yield bands. -/
theorem analyze_stock_quality_gate (sd : StockData) (mode : String)
    (h : (analyze_stock sd mode).quality_ok = false) :
    (analyze_stock sd mode).recommendation = "DOES NOT QUALIFY" := by
  simp only [analyze_stock] at h ⊢
  rw [h]
  rfl

/-- Witness for C1: a stock failing only the EPS criterion, priced in the
BUY band, still comes back DOES NOT QUALIFY. -/
theorem analyze_stock_quality_gate_witness :
    (analyze_stock epsFailingStock "Balanced").recommendation = "DOES NOT QUALIFY" :=
  analyze_stock_quality_gate epsFailingStock "Balanced"
    (by norm_num +decide [analyze_stock, get_regional_criteria, REGIONAL_CRITERIA,
      usdCriteria, epsFailingStock])

/-- C2 (failing input): a quality-passing stock whose historical yield
range is the (0, 0) fallback is scored with literal zero yield targets, so
analyze_stock hands it a BUY recommendation instead of treating the zero
range as the absence of a valuation signal. -/
theorem zero_yield_range_recommends_buy :
    (analyze_stock zeroRangeStock "Balanced").quality_ok = true ∧
    (analyze_stock zeroRangeStock "Balanced").recommendation = "BUY" := by
  constructor <;>
    norm_num +decide [analyze_stock, get_regional_criteria, REGIONAL_CRITERIA,
      usdCriteria, zeroRangeStock]

/-- C3: for quality-passing inputs, the yield bands are
highYield * 0.80, highYield * 0.70 and lowYield * 1.20, and the
recommendation is selected by the ordered tests BUY, WATCH, SELL, HOLD. -/
theorem analyze_stock_valuation_bands (sd : StockData) (mode : String)
    (hq : (analyze_stock sd mode).quality_ok = true) :
    (analyze_stock sd mode).buy_yield = sd.hist_high_yield * 0.80 ∧
    (analyze_stock sd mode).watch_yield = sd.hist_high_yield * 0.70 ∧
    (analyze_stock sd mode).sell_yield = sd.hist_low_yield * 1.20 ∧
    (analyze_stock sd mode).recommendation =
      (if (analyze_stock sd mode).buy_yield ≤ (analyze_stock sd mode).current_yield then "BUY"
       else if (analyze_stock sd mode).watch_yield ≤ (analyze_stock sd mode).current_yield then "WATCH"
       else if (analyze_stock sd mode).current_yield ≤ (analyze_stock sd mode).sell_yield then "SELL"
       else "HOLD") := by
  simp only [analyze_stock] at hq ⊢
  rw [hq]
  simp only [eq_self_iff_true, if_true]
  refine ⟨trivial, trivial, trivial, ?_⟩
  split_ifs <;> rfl

/-- Witness for C3: a quality-passing stock whose current yield of 3
falls between the watch band 2.8 and the buy band 3.2, giving WATCH. -/
theorem analyze_stock_valuation_bands_witness :
    (analyze_stock qualityPassingStock "Balanced").buy_yield
        = qualityPassingStock.hist_high_yield * 0.80 ∧
    (analyze_stock qualityPassingStock "Balanced").watch_yield
        = qualityPassingStock.hist_high_yield * 0.70 ∧
    (analyze_stock qualityPassingStock "Balanced").sell_yield
        = qualityPassingStock.hist_low_yield * 1.20 ∧
    (analyze_stock qualityPassingStock "Balanced").recommendation =
      (if (analyze_stock qualityPassingStock "Balanced").buy_yield
          ≤ (analyze_stock qualityPassingStock "Balanced").current_yield then "BUY"
       else if (analyze_stock qualityPassingStock "Balanced").watch_yield
          ≤ (analyze_stock qualityPassingStock "Balanced").current_yield then "WATCH"
       else if (analyze_stock qualityPassingStock "Balanced").current_yield
          ≤ (analyze_stock qualityPassingStock "Balanced").sell_yield then "SELL"
       else "HOLD") :=
  analyze_stock_valuation_bands qualityPassingStock "Balanced"
    (by norm_num +decide [analyze_stock, get_regional_criteria, REGIONAL_CRITERIA,
      usdCriteria, qualityPassingStock])

/-- C7: for every currency (unknown ones fall back to the USD entry), the
Aggressive thresholds are the Balanced ones minus a fixed offset floored
via max at a fixed minimum for the count criteria and times 0.4 for shares
outstanding, and no count threshold ever lands below its floor. -/
theorem aggressive_thresholds_floored (currency : String) :
    (get_regional_criteria currency "Aggressive").dividend_increases_min
      = max (((REGIONAL_CRITERIA currency).getD usdCriteria).dividend_increases_min - 2) 3 ∧
    (get_regional_criteria currency "Aggressive").institutional_holders_min
      = max (((REGIONAL_CRITERIA currency).getD usdCriteria).institutional_holders_min - 2) 3 ∧
    (get_regional_criteria currency "Aggressive").eps_increases_min
      = max (((REGIONAL_CRITERIA currency).getD usdCriteria).eps_increases_min - 2) 3 ∧
    (get_regional_criteria currency "Aggressive").consecutive_dividend_min
      = max (((REGIONAL_CRITERIA currency).getD usdCriteria).consecutive_dividend_min - 5) 5 ∧
    (get_regional_criteria currency "Aggressive").shares_outstanding_min
      = ((REGIONAL_CRITERIA currency).getD usdCriteria).shares_outstanding_min * 0.4 ∧
    3 ≤ (get_regional_criteria currency "Aggressive").dividend_increases_min ∧
    3 ≤ (get_regional_criteria currency "Aggressive").institutional_holders_min ∧
    3 ≤ (get_regional_criteria currency "Aggressive").eps_increases_min ∧
    5 ≤ (get_regional_criteria currency "Aggressive").consecutive_dividend_min := by
  simp only [get_regional_criteria, if_pos]
  exact ⟨trivial, trivial, trivial, trivial, trivial, le_max_right _ _, le_max_right _ _,
    le_max_right _ _, le_max_right _ _⟩

lemma yearBeq_false_of_ne {y y' : Nat} (h : y ≠ y') : (y == y') = false :=
  beq_eq_false_iff_ne.mpr h

lemma hasYear_cons (y : Nat) (a : ℚ) (d : DividendSeries) (y' : Nat) (h : y ≠ y') :
    hasYear ((y, a) :: d) y' = hasYear d y' := by
  simp [hasYear, List.any_cons, yearBeq_false_of_ne h]

lemma annualTotal_cons (y : Nat) (a : ℚ) (d : DividendSeries) (y' : Nat) (h : y ≠ y') :
    annualTotal ((y, a) :: d) y' = annualTotal d y' := by
  simp [annualTotal, List.filter_cons, yearBeq_false_of_ne h]

lemma ne_of_mem_windowCandidates {current_year y y' : Nat}
    (h12 : 12 ≤ current_year) (hy : y + 12 < current_year ∨ current_year ≤ y)
    (hmem : y' ∈ (List.range 12).map (fun k => current_year - 12 + k)) : y ≠ y' := by
  rcases List.mem_map.mp hmem with ⟨k, hk, rfl⟩
  have hk12 : k < 12 := List.mem_range.mp hk
  omega

lemma windowYears_cons_of_outside (d : DividendSeries) (current_year y : Nat) (a : ℚ)
    (h12 : 12 ≤ current_year) (hy : y + 12 < current_year ∨ current_year ≤ y) :
    windowYears ((y, a) :: d) current_year = windowYears d current_year := by
  unfold windowYears
  refine List.filter_congr ?_
  intro y' hmem
  rw [hasYear_cons y a d y' (ne_of_mem_windowCandidates h12 hy hmem)]

/-- C4: the increase counter only looks at annual totals of years in the
window from current_year - 12 up to but excluding current_year (a payment
in any other year never changes the count), equal adjacent totals are not
increases, and absent years are skipped rather than read as zero: with
totals 1.0, 1.0, 1.2, 1.2, 1.5 in 2019 .. 2023 the count is 2, and with
2019 at 1.0, 2020 missing and 2021 at 0.5 the count is 0 (a zero-filled
2020 would have made 2021 an increase). -/
theorem dividend_increases_window_and_counting :
    (∀ (dividends : DividendSeries) (current_year y : Nat) (a : ℚ),
        12 ≤ current_year → (y + 12 < current_year ∨ current_year ≤ y) →
        calculate_dividend_increases ((y, a) :: dividends) current_year =
          calculate_dividend_increases dividends current_year) ∧
    calculate_dividend_increases
      [(2019, 1.0), (2020, 1.0), (2021, 1.2), (2022, 1.2), (2023, 1.5)] 2024 = 2 ∧
    calculate_dividend_increases [(2019, 1.0), (2021, 0.5)] 2024 = 0 := by
  refine ⟨?_, ?_, ?_⟩
  · intro d current_year y a h12 hy
    have hws := windowYears_cons_of_outside d current_year y a h12 hy
    by_cases hd : d = []
    · subst hd
      have hempty : windowYears ([] : DividendSeries) current_year = [] := by
        simp [windowYears, hasYear]
      rw [calculate_dividend_increases, calculate_dividend_increases,
        if_neg (List.cons_ne_nil _ _), if_pos rfl, hws, hempty]
      rfl
    · rw [calculate_dividend_increases, calculate_dividend_increases,
        if_neg (List.cons_ne_nil _ _), if_neg hd, hws]
      congr 1
      refine List.map_congr_left ?_
      intro y' hmem
      exact annualTotal_cons y a d y'
        (ne_of_mem_windowCandidates h12 hy (List.mem_of_mem_filter hmem))
  · have hw : windowYears [(2019, 1.0), (2020, 1.0), (2021, 1.2), (2022, 1.2), (2023, 1.5)] 2024
        = [2019, 2020, 2021, 2022, 2023] := by decide
    rw [calculate_dividend_increases, if_neg (by decide), hw]
    norm_num +decide [annualTotal, List.filter_cons, countAdjIncreases]
  · have hw : windowYears [(2019, 1.0), (2021, 0.5)] 2024 = [2019, 2021] := by decide
    rw [calculate_dividend_increases, if_neg (by decide), hw]
    norm_num +decide [annualTotal, List.filter_cons, countAdjIncreases]

/-- Witness for C4: a payment in 2024 itself (outside the window, which
stops at 2023) leaves the example count of 2 unchanged. -/
theorem dividend_increases_window_witness :
    calculate_dividend_increases
        ((2024, 9) :: [(2019, 1.0), (2020, 1.0), (2021, 1.2), (2022, 1.2), (2023, 1.5)]) 2024 = 2 :=
  (dividend_increases_window_and_counting.1
      [(2019, 1.0), (2020, 1.0), (2021, 1.2), (2022, 1.2), (2023, 1.5)] 2024 2024 9
      (by norm_num) (Or.inr (le_refl 2024))).trans
    dividend_increases_window_and_counting.2.1

lemma consecFrom_eq (dividends : DividendSeries) :
    ∀ (n y : Nat), (∀ k, k < n → yearPositive dividends (y - k) = true) →
      yearPositive dividends (y - n) = false →
      consecFrom dividends y = n := by
  intro n
  induction n with
  | zero =>
    intro y _ hfail
    rw [Nat.sub_zero] at hfail
    cases y with
    | zero => rfl
    | succ m => rw [consecFrom, hfail]; rfl
  | succ m ih =>
    intro y hall hfail
    cases y with
    | zero =>
      have h0 : yearPositive dividends 0 = true := by
        simpa using hall 0 (Nat.succ_pos m)
      rw [Nat.zero_sub] at hfail
      rw [h0] at hfail
      cases hfail
    | succ z =>
      have h0 : yearPositive dividends (z + 1) = true := by
        simpa using hall 0 (Nat.succ_pos m)
      rw [consecFrom, h0, if_pos rfl]
      have ih' := ih z (fun k hk => by
          have := hall (k + 1) (by omega)
          simpa [Nat.succ_sub_succ] using this)
        (by simpa [Nat.succ_sub_succ] using hfail)
      omega

/-- C5: the consecutive-years counter starts at current_year - 1 and walks
backward while each year has a positive annual total, stopping at the
first gap or non-positive year: if the n years below current_year are all
positive and the year n+1 steps down is not, the count is exactly n (n =
10 in the claim), and an empty series yields 0. -/
theorem consecutive_dividend_years_walk :
    (∀ (dividends : DividendSeries) (n current_year : Nat), dividends ≠ [] →
        (∀ k, k < n → yearPositive dividends (current_year - 1 - k) = true) →
        yearPositive dividends (current_year - 1 - n) = false →
        calculate_consecutive_dividend_years dividends current_year = n) ∧
    (∀ current_year, calculate_consecutive_dividend_years [] current_year = 0) := by
  constructor
  · intro dividends n current_year hne hall hfail
    rw [calculate_consecutive_dividend_years, if_neg hne]
    exact consecFrom_eq dividends n (current_year - 1) hall hfail
  · intro current_year
    simp [calculate_consecutive_dividend_years]

/-- Witness for C5: ten consecutive positive years 2014 .. 2023 with
nothing in 2013 give exactly 10 at reference year 2024. -/
theorem consecutive_dividend_years_walk_witness :
    calculate_consecutive_dividend_years tenYearSeries 2024 = 10 :=
  consecutive_dividend_years_walk.1 tenYearSeries 10 2024 (by decide)
    (by
      intro k hk
      interval_cases k <;>
        norm_num +decide [yearPositive, hasYear, annualTotal, List.filter_cons, tenYearSeries])
    (by decide)

lemma foldl_max_eq_or_mem : ∀ (l : List ℚ) (a : ℚ), l.foldl max a = a ∨ l.foldl max a ∈ l := by
  intro l
  induction l with
  | nil => intro a; exact Or.inl rfl
  | cons x t ih =>
    intro a
    rw [List.foldl_cons]
    rcases ih (max a x) with h | h
    · rcases max_choice a x with hm | hm
      · exact Or.inl (h.trans hm)
      · exact Or.inr (by rw [h, hm]; exact List.mem_cons_self x t)
    · exact Or.inr (List.mem_cons_of_mem x h)

lemma le_foldl_max : ∀ (l : List ℚ) (a b : ℚ), b = a ∨ b ∈ l → b ≤ l.foldl max a := by
  intro l
  induction l with
  | nil =>
    intro a b h
    rcases h with rfl | h
    · exact le_refl _
    · cases h
  | cons x t ih =>
    intro a b h
    rw [List.foldl_cons]
    rcases h with rfl | h
    · exact le_trans (le_max_left b x) (ih (max b x) (max b x) (Or.inl rfl))
    · rcases List.mem_cons.mp h with rfl | h
      · exact le_trans (le_max_right a b) (ih (max a b) (max a b) (Or.inl rfl))
      · exact ih (max a x) b (Or.inr h)

lemma foldl_min_eq_or_mem : ∀ (l : List ℚ) (a : ℚ), l.foldl min a = a ∨ l.foldl min a ∈ l := by
  intro l
  induction l with
  | nil => intro a; exact Or.inl rfl
  | cons x t ih =>
    intro a
    rw [List.foldl_cons]
    rcases ih (min a x) with h | h
    · rcases min_choice a x with hm | hm
      · exact Or.inl (h.trans hm)
      · exact Or.inr (by rw [h, hm]; exact List.mem_cons_self x t)
    · exact Or.inr (List.mem_cons_of_mem x h)

lemma foldl_min_le : ∀ (l : List ℚ) (a b : ℚ), b = a ∨ b ∈ l → l.foldl min a ≤ b := by
  intro l
  induction l with
  | nil =>
    intro a b h
    rcases h with rfl | h
    · exact le_refl _
    · cases h
  | cons x t ih =>
    intro a b h
    rw [List.foldl_cons]
    rcases h with rfl | h
    · exact le_trans (ih (min b x) (min b x) (Or.inl rfl)) (min_le_left b x)
    · rcases List.mem_cons.mp h with rfl | h
      · exact le_trans (ih (min a b) (min a b) (Or.inl rfl)) (min_le_right a b)
      · exact ih (min a x) b (Or.inr h)

lemma listMax_mem {l : List ℚ} (h : l ≠ []) : listMax l ∈ l := by
  cases l with
  | nil => exact absurd rfl h
  | cons x xs =>
    rw [listMax]
    rcases foldl_max_eq_or_mem xs x with h1 | h1
    · rw [h1]; exact List.mem_cons_self x xs
    · exact List.mem_cons_of_mem x h1

lemma le_listMax {l : List ℚ} {z : ℚ} (h : z ∈ l) : z ≤ listMax l := by
  cases l with
  | nil => cases h
  | cons x xs =>
    rw [listMax]
    rcases List.mem_cons.mp h with rfl | h1
    · exact le_foldl_max xs z z (Or.inl rfl)
    · exact le_foldl_max xs x z (Or.inr h1)

lemma listMin_mem {l : List ℚ} (h : l ≠ []) : listMin l ∈ l := by
  cases l with
  | nil => exact absurd rfl h
  | cons x xs =>
    rw [listMin]
    rcases foldl_min_eq_or_mem xs x with h1 | h1
    · rw [h1]; exact List.mem_cons_self x xs
    · exact List.mem_cons_of_mem x h1

lemma listMin_le {l : List ℚ} {z : ℚ} (h : z ∈ l) : listMin l ≤ z := by
  cases l with
  | nil => cases h
  | cons x xs =>
    rw [listMin]
    rcases List.mem_cons.mp h with rfl | h1
    · exact foldl_min_le xs z z (Or.inl rfl)
    · exact foldl_min_le xs x z (Or.inr h1)

/-- C6: whenever some price is positive and the dividend is nonzero, the
yield range is (max, min) over the yields of the positive prices: both
components are themselves yields of the list and bound every yield from
above respectively below; on prices 50 and 100 with dividend 2 the range
is (4, 2); and an empty price series or a zero dividend falls back to
(0, 0) instead of failing. -/
theorem historical_yields_range (prices : List ℚ) (annual_dividend : ℚ)
    (hd : annual_dividend ≠ 0) (hpos : ∃ p ∈ prices, 0 < p) :
    ((calculate_historical_yields prices annual_dividend).1 ∈ yieldsOf prices annual_dividend ∧
      (∀ z ∈ yieldsOf prices annual_dividend,
        z ≤ (calculate_historical_yields prices annual_dividend).1) ∧
      (calculate_historical_yields prices annual_dividend).2 ∈ yieldsOf prices annual_dividend ∧
      (∀ z ∈ yieldsOf prices annual_dividend,
        (calculate_historical_yields prices annual_dividend).2 ≤ z)) ∧
    calculate_historical_yields [50, 100] 2 = (4, 2) ∧
    (∀ q : ℚ, calculate_historical_yields [] q = (0, 0)) ∧
    (∀ ps : List ℚ, calculate_historical_yields ps 0 = (0, 0)) := by
  refine ⟨?_, ?_, ?_, ?_⟩
  · obtain ⟨p, hp, hppos⟩ := hpos
    have hody : annual_dividend / p * 100 ∈ yieldsOf prices annual_dividend := by
      unfold yieldsOf
      exact List.mem_map_of_mem _ (List.mem_filter.mpr ⟨hp, by simpa using hppos⟩)
    have hyne : yieldsOf prices annual_dividend ≠ [] := List.ne_nil_of_mem hody
    have hpne : prices ≠ [] := List.ne_nil_of_mem hp
    have hres : calculate_historical_yields prices annual_dividend =
        (listMax (yieldsOf prices annual_dividend), listMin (yieldsOf prices annual_dividend)) := by
      rw [calculate_historical_yields, if_neg (by simp [hpne, hd])]
      simp only [if_neg hyne]
    rw [hres]
    exact ⟨listMax_mem hyne, fun z hz => le_listMax hz, listMin_mem hyne,
      fun z hz => listMin_le hz⟩
  · norm_num +decide [calculate_historical_yields, yieldsOf, List.filter_cons, listMax, listMin]
  · intro q
    simp [calculate_historical_yields]
  · intro ps
    simp [calculate_historical_yields]

/-- Witness for C6: the concrete range on prices 50 and 100 with annual
dividend 2, obtained from the theorem with its hypotheses discharged at
that input. -/
theorem historical_yields_range_witness :
    calculate_historical_yields [50, 100] 2 = (4, 2) :=
  (historical_yields_range [50, 100] 2 (by norm_num)
    ⟨50, by norm_num, by norm_num⟩).2.1

/-- C8: when every stage of the EPS chain yields no data (the provider
stage always does, the registry and scrape stages returned none, and the
heuristic stage has no handle, no dividends, or a dividend-increase count
below 3), the chain still returns the defined successful result of count 0
with the no-data source label, never an error. -/
theorem eps_chain_unavailable_result (has_stock : Bool) (dividends : DividendSeries)
    (current_year : Nat)
    (h : has_stock = false ∨ dividends = [] ∨
      calculate_dividend_increases dividends current_year < 3) :
    fetch_eps_increases_multi_source has_stock none none dividends current_year
      = (0, "No data available") := by
  simp only [fetch_eps_increases_multi_source, fetch_yfinance_eps_increases, ite_self]
  split_ifs with h1 h2
  · rcases h with h | h | h
    · rw [h] at h1; exact absurd h1.1 (by simp)
    · exact absurd h h1.2
    · omega
  · rfl
  · rfl

/-- Witness for C8: no provider data, no registry or scrape result and an
empty dividend series give (0, no-data label). -/
theorem eps_chain_unavailable_result_witness :
    fetch_eps_increases_multi_source true none none [] 2024 = (0, "No data available") :=
  eps_chain_unavailable_result true [] 2024 (Or.inr (Or.inl rfl))

/-- C9: with all earlier stages empty and a nonempty dividend series, the
heuristic stage returns max 3 (floor of 0.7 times the dividend-increase
count) with the estimate source label whenever that count is at least 3,
and yields the no-data result when the count is below 3. -/
theorem eps_heuristic_stage_estimate (dividends : DividendSeries) (current_year : Nat)
    (hne : dividends ≠ []) :
    (3 ≤ calculate_dividend_increases dividends current_year →
      fetch_eps_increases_multi_source true none none dividends current_year =
        (max 3 (calculate_dividend_increases dividends current_year * 7 / 10),
          "Estimated from dividends")) ∧
    (calculate_dividend_increases dividends current_year < 3 →
      fetch_eps_increases_multi_source true none none dividends current_year =
        (0, "No data available")) := by
  constructor <;> intro h <;>
    simp only [fetch_eps_increases_multi_source, fetch_yfinance_eps_increases, ite_self] <;>
    rw [if_pos ⟨trivial, hne⟩]
  · rw [if_pos h]
  · rw [if_neg (by omega)]

/-- Witness for C9: a series with 5 dividend increases and no other EPS
source gives the estimate max 3 (floor of 3.5) = 3. -/
theorem eps_heuristic_stage_estimate_witness :
    fetch_eps_increases_multi_source true none none risingSeries 2024
      = (3, "Estimated from dividends") := by
  have hd : calculate_dividend_increases risingSeries 2024 = 5 := by
    have hw : windowYears risingSeries 2024 = [2013, 2014, 2015, 2016, 2017, 2018] := by decide
    rw [calculate_dividend_increases, if_neg (by decide), hw]
    norm_num +decide [annualTotal, List.filter_cons, countAdjIncreases, risingSeries]
  have h := (eps_heuristic_stage_estimate risingSeries 2024 (by decide)).1 (by rw [hd]; norm_num)
  rw [hd] at h
  exact h.trans (by norm_num)

lemma lookupYear_append_some {m₁ : List (Nat × ℚ)} (m₂ : List (Nat × ℚ)) {y : Nat} {v : ℚ}
    (h : lookupYear m₁ y = some v) : lookupYear (m₁ ++ m₂) y = some v := by
  induction m₁ with
  | nil => cases h
  | cons p t ih =>
    rw [lookupYear] at h
    rw [List.cons_append, lookupYear]
    by_cases hp : p.1 = y
    · rw [if_pos hp] at h ⊢; exact h
    · rw [if_neg hp] at h ⊢; exact ih h

lemma lookupYear_append_none {m₁ : List (Nat × ℚ)} (m₂ : List (Nat × ℚ)) {y : Nat}
    (h : lookupYear m₁ y = none) : lookupYear (m₁ ++ m₂) y = lookupYear m₂ y := by
  induction m₁ with
  | nil => rfl
  | cons p t ih =>
    rw [lookupYear] at h
    rw [List.cons_append, lookupYear]
    by_cases hp : p.1 = y
    · rw [if_pos hp] at h; cases h
    · rw [if_neg hp] at h ⊢; exact ih h

lemma lookupYear_setYear_self : ∀ (m : List (Nat × ℚ)) (y : Nat) (v : ℚ),
    (lookupYear m y).isSome = true → lookupYear (setYear m y v) y = some v := by
  intro m
  induction m with
  | nil => intro y v h; simp [lookupYear] at h
  | cons p t ih =>
    intro y v h
    rw [setYear]
    by_cases hp : p.1 = y
    · rw [if_pos hp, lookupYear, if_pos rfl]
    · rw [if_neg hp, lookupYear, if_neg hp]
      apply ih
      rw [lookupYear, if_neg hp] at h
      exact h

lemma lookupYear_setYear_ne : ∀ (m : List (Nat × ℚ)) (y : Nat) (v : ℚ) (z : Nat), z ≠ y →
    lookupYear (setYear m y v) z = lookupYear m z := by
  intro m
  induction m with
  | nil => intro y v z hz; rfl
  | cons p t ih =>
    intro y v z hz
    rw [setYear]
    by_cases hp : p.1 = y
    · rw [if_pos hp, lookupYear, lookupYear,
        if_neg (fun hh => hz ((hh : y = z).symm)),
        if_neg (fun hh => hz ((hp.symm.trans hh).symm))]
      exact ih y v z hz
    · rw [if_neg hp, lookupYear, lookupYear]
      by_cases hpz : p.1 = z
      · rw [if_pos hpz, if_pos hpz]
      · rw [if_neg hpz, if_neg hpz]
        exact ih y v z hz

lemma keys_setYear : ∀ (m : List (Nat × ℚ)) (y : Nat) (v : ℚ),
    (setYear m y v).map Prod.fst = m.map Prod.fst := by
  intro m
  induction m with
  | nil => intro y v; rfl
  | cons p t ih =>
    intro y v
    rw [setYear]
    by_cases hp : p.1 = y
    · rw [if_pos hp, List.map_cons, List.map_cons, ih, hp]
    · rw [if_neg hp, List.map_cons, List.map_cons, ih]

lemma lookupYear_isSome_iff : ∀ (m : List (Nat × ℚ)) (y : Nat),
    (lookupYear m y).isSome = true ↔ y ∈ m.map Prod.fst := by
  intro m
  induction m with
  | nil => intro y; simp [lookupYear]
  | cons p t ih =>
    intro y
    rw [lookupYear, List.map_cons, List.mem_cons]
    by_cases hp : p.1 = y
    · rw [if_pos hp]
      simp [hp.symm]
    · rw [if_neg hp, ih]
      constructor
      · exact Or.inr
      · rintro (h | h)
        · exact absurd h.symm hp
        · exact h

lemma lookupYear_insertAnnual_mono (m : List (Nat × ℚ)) (year : Nat) (val : ℚ)
    {y : Nat} {v : ℚ} (h : lookupYear m y = some v) :
    ∃ w, lookupYear (insertAnnual m year val) y = some w ∧ |v| ≤ |w| := by
  cases hl : lookupYear m year with
  | none =>
    simp only [insertAnnual, hl]
    exact ⟨v, lookupYear_append_some _ h, le_refl _⟩
  | some w =>
    simp only [insertAnnual, hl]
    by_cases hv : |w| < |val|
    · rw [if_pos hv]
      by_cases hy : y = year
      · subst hy
        rw [h] at hl
        injection hl with hl
        subst hl
        exact ⟨val, lookupYear_setYear_self m y val (by rw [h]; rfl), le_of_lt hv⟩
      · exact ⟨v, (lookupYear_setYear_ne m year val y hy).trans h, le_refl _⟩
    · rw [if_neg hv]
      exact ⟨v, h, le_refl _⟩

lemma lookupYear_insertAnnual_self (m : List (Nat × ℚ)) (year : Nat) (val : ℚ) :
    ∃ w, lookupYear (insertAnnual m year val) year = some w ∧ |val| ≤ |w| := by
  cases hl : lookupYear m year with
  | none =>
    simp only [insertAnnual, hl]
    refine ⟨val, ?_, le_refl _⟩
    rw [lookupYear_append_none _ hl, lookupYear, if_pos rfl]
  | some w =>
    simp only [insertAnnual, hl]
    by_cases hv : |w| < |val|
    · rw [if_pos hv]
      exact ⟨val, lookupYear_setYear_self m year val (by rw [hl]; rfl), le_refl _⟩
    · rw [if_neg hv]
      exact ⟨w, hl, le_of_not_lt hv⟩

lemma lookupYear_insertAnnual_isSome (m : List (Nat × ℚ)) (year : Nat) (val : ℚ) (y : Nat) :
    (lookupYear (insertAnnual m year val) y).isSome = true ↔
      (lookupYear m y).isSome = true ∨ y = year := by
  cases hl : lookupYear m year with
  | none =>
    simp only [insertAnnual, hl]
    by_cases hy : y = year
    · subst hy
      rw [lookupYear_append_none _ hl, lookupYear, if_pos rfl]
      simp
    · constructor
      · intro h
        cases hm : lookupYear m y with
        | some v => exact Or.inl rfl
        | none =>
          rw [lookupYear_append_none _ hm, lookupYear, if_neg (fun hh => hy hh.symm)] at h
          cases h
      · rintro (h | h)
        · obtain ⟨v, hv⟩ := Option.isSome_iff_exists.mp h
          rw [lookupYear_append_some _ hv]
          rfl
        · exact absurd h hy
  | some w =>
    simp only [insertAnnual, hl]
    by_cases hv : |w| < |val|
    · rw [if_pos hv]
      by_cases hy : y = year
      · subst hy
        rw [lookupYear_setYear_self m y val (by rw [hl]; rfl)]
        simp [Or.inr]
      · rw [lookupYear_setYear_ne m year val y hy]
        simp [hy]
    · rw [if_neg hv]
      by_cases hy : y = year
      · subst hy
        rw [hl]
        simp
      · simp [hy]

lemma keys_insertAnnual_cases (m : List (Nat × ℚ)) (year : Nat) (val : ℚ) :
    (insertAnnual m year val).map Prod.fst = m.map Prod.fst ∨
      ((insertAnnual m year val).map Prod.fst = m.map Prod.fst ++ [year] ∧
        lookupYear m year = none) := by
  cases hl : lookupYear m year with
  | none =>
    right
    rw [insertAnnual, hl, List.map_append]
    exact ⟨rfl, rfl⟩
  | some w =>
    left
    simp only [insertAnnual, hl]
    by_cases hv : |w| < |val|
    · rw [if_pos hv]
      exact keys_setYear m year val
    · rw [if_neg hv]

lemma lookupYear_updateAnnualEps_mono (m : List (Nat × ℚ)) (e : SECEntry)
    {y : Nat} {v : ℚ} (h : lookupYear m y = some v) :
    ∃ w, lookupYear (updateAnnualEps m e) y = some w ∧ |v| ≤ |w| := by
  by_cases hform : e.form = "10-K"
  · cases hfy : e.fy with
    | none => simp only [updateAnnualEps, hform, if_pos, hfy]; exact ⟨v, h, le_refl _⟩
    | some year =>
      simp only [updateAnnualEps, hform, if_pos, hfy]
      exact lookupYear_insertAnnual_mono m year e.val h
  · simp only [updateAnnualEps, hform, if_neg, ite_false]
    exact ⟨v, h, le_refl _⟩

lemma lookupYear_updateAnnualEps_self (m : List (Nat × ℚ)) (e : SECEntry)
    {y : Nat} (hform : e.form = "10-K") (hfy : e.fy = some y) :
    ∃ w, lookupYear (updateAnnualEps m e) y = some w ∧ |e.val| ≤ |w| := by
  simp only [updateAnnualEps, hform, if_pos, hfy]
  exact lookupYear_insertAnnual_self m y e.val

lemma lookupYear_updateAnnualEps_isSome (m : List (Nat × ℚ)) (e : SECEntry) (y : Nat) :
    (lookupYear (updateAnnualEps m e) y).isSome = true ↔
      (lookupYear m y).isSome = true ∨ (e.form = "10-K" ∧ e.fy = some y) := by
  by_cases hform : e.form = "10-K"
  · cases hfy : e.fy with
    | none =>
      simp only [updateAnnualEps, hform, if_pos, hfy]
      simp
    | some year =>
      simp only [updateAnnualEps, hform, if_pos, hfy]
      rw [lookupYear_insertAnnual_isSome]
      constructor
      · rintro (h | h)
        · exact Or.inl h
        · exact Or.inr ⟨trivial, by rw [h]⟩
      · rintro (h | ⟨-, h⟩)
        · exact Or.inl h
        · injection h with h
          exact Or.inr h.symm
  · simp only [updateAnnualEps, hform, if_neg, ite_false]
    simp [hform]

lemma lookupYear_foldl_mono :
    ∀ (l : List SECEntry) (m : List (Nat × ℚ)) (y : Nat) (v : ℚ),
      lookupYear m y = some v →
      ∃ w, lookupYear (l.foldl updateAnnualEps m) y = some w ∧ |v| ≤ |w| := by
  intro l
  induction l with
  | nil => exact fun m y v h => ⟨v, h, le_refl _⟩
  | cons e t ih =>
    intro m y v h
    rw [List.foldl_cons]
    obtain ⟨w, hw, hvw⟩ := lookupYear_updateAnnualEps_mono m e h
    obtain ⟨w2, hw2, hww2⟩ := ih _ y w hw
    exact ⟨w2, hw2, le_trans hvw hww2⟩

lemma lookupYear_foldl_isSome :
    ∀ (l : List SECEntry) (m : List (Nat × ℚ)) (y : Nat),
      (lookupYear (l.foldl updateAnnualEps m) y).isSome = true ↔
        (lookupYear m y).isSome = true ∨ ∃ e ∈ l, e.form = "10-K" ∧ e.fy = some y := by
  intro l
  induction l with
  | nil => intro m y; simp
  | cons e t ih =>
    intro m y
    rw [List.foldl_cons, ih, lookupYear_updateAnnualEps_isSome]
    constructor
    · rintro ((h | h) | h)
      · exact Or.inl h
      · exact Or.inr ⟨e, List.mem_cons_self e t, h⟩
      · obtain ⟨f, hf, hP⟩ := h
        exact Or.inr ⟨f, List.mem_cons_of_mem e hf, hP⟩
    · rintro (h | h)
      · exact Or.inl (Or.inl h)
      · obtain ⟨f, hf, hP⟩ := h
        rcases List.mem_cons.mp hf with rfl | hf
        · exact Or.inl (Or.inr hP)
        · exact Or.inr ⟨f, hf, hP⟩

lemma nodup_keys_updateAnnualEps (m : List (Nat × ℚ)) (e : SECEntry)
    (h : (m.map Prod.fst).Nodup) : ((updateAnnualEps m e).map Prod.fst).Nodup := by
  by_cases hform : e.form = "10-K"
  · cases hfy : e.fy with
    | none => simpa only [updateAnnualEps, hform, if_pos, hfy] using h
    | some year =>
      simp only [updateAnnualEps, hform, if_pos, hfy]
      rcases keys_insertAnnual_cases m year e.val with hk | ⟨hk, hnone⟩
      · rw [hk]; exact h
      · rw [hk, List.nodup_append]
        refine ⟨h, List.nodup_singleton year, ?_⟩
        intro a ha hb
        rw [List.mem_singleton] at hb
        subst hb
        have : (lookupYear m a).isSome = true := (lookupYear_isSome_iff m a).mpr ha
        rw [hnone] at this
        cases this
  · simpa only [updateAnnualEps, hform, if_neg, ite_false] using h

lemma nodup_keys_foldl :
    ∀ (l : List SECEntry) (m : List (Nat × ℚ)),
      (m.map Prod.fst).Nodup → ((l.foldl updateAnnualEps m).map Prod.fst).Nodup := by
  intro l
  induction l with
  | nil => exact fun m h => h
  | cons e t ih =>
    intro m h
    rw [List.foldl_cons]
    exact ih _ (nodup_keys_updateAnnualEps m e h)

lemma two_le_length_of_mem {K : List Nat} {y1 y2 : Nat}
    (h1 : y1 ∈ K) (h2 : y2 ∈ K) (hne : y1 ≠ y2) : 2 ≤ K.length := by
  cases K with
  | nil => cases h1
  | cons a t =>
    cases t with
    | nil =>
      rw [List.mem_singleton] at h1 h2
      exact absurd (h1.trans h2.symm) hne
    | cons b t2 =>
      simp only [List.length_cons]
      omega

lemma exists_two_distinct {K : List Nat} (hnd : K.Nodup) (hlen : 2 ≤ K.length) :
    ∃ y1 y2, y1 ∈ K ∧ y2 ∈ K ∧ y1 ≠ y2 := by
  cases K with
  | nil => simp at hlen
  | cons a t =>
    cases t with
    | nil => simp at hlen
    | cons b t2 =>
      refine ⟨a, b, List.mem_cons_self _ _,
        List.mem_cons_of_mem _ (List.mem_cons_self _ _), ?_⟩
      have hna := (List.nodup_cons.mp hnd).1
      intro hab
      exact hna (by rw [hab]; exact List.mem_cons_self _ _)

lemma countAdjIncreases_concat :
    ∀ (l : List ℚ) (a : ℚ),
      countAdjIncreases (l ++ [a]) =
        countAdjIncreases l +
          (match l.getLast? with
            | some b => if b < a then 1 else 0
            | none => 0) := by
  intro l
  induction l with
  | nil => intro a; rfl
  | cons x t ih =>
    intro a
    cases t with
    | nil => simp [countAdjIncreases]
    | cons y t2 =>
      have h1 : countAdjIncreases ((x :: y :: t2) ++ [a])
          = (if x < y then 1 else 0) + countAdjIncreases ((y :: t2) ++ [a]) := rfl
      have h2 : countAdjIncreases (x :: y :: t2)
          = (if x < y then 1 else 0) + countAdjIncreases (y :: t2) := rfl
      rw [h1, ih, h2, List.getLast?_cons_cons]
      exact (Nat.add_assoc _ _ _).symm

lemma descPairCount_eq_reverse : ∀ l : List ℚ, descPairCount l = countAdjIncreases l.reverse := by
  intro l
  induction l with
  | nil => rfl
  | cons a t ih =>
    cases t with
    | nil => rfl
    | cons b t2 =>
      rw [descPairCount, List.reverse_cons, countAdjIncreases_concat,
        List.getLast?_reverse, List.head?_cons, ih]
      exact Nat.add_comm _ _

/-- C10: in the registry processing, every stored annual EPS value
dominates in absolute magnitude every 10-K entry value of its fiscal year
(duplicates keep the larger magnitude); the stage yields no data exactly
when there are not two distinct 10-K fiscal years; and with at least two
fiscal years it returns the strictly-increasing adjacent-pair count, in
chronological order, over the 12 most recent fiscal years - the same
adjacent-pair algorithm countAdjIncreases as the dividend-increase
counter, applied to the reversed descending year list. -/
theorem sec_edgar_eps_processing :
    (∀ (entries : List SECEntry) (e : SECEntry) (y : Nat),
        e ∈ entries → e.form = "10-K" → e.fy = some y →
        ∃ v, lookupYear (annualEps entries) y = some v ∧ |e.val| ≤ |v|) ∧
    (∀ entries : List SECEntry,
        fetch_sec_edgar_eps_increases entries = none ↔
          ¬ ∃ y1 y2 : Nat, y1 ≠ y2 ∧
              (∃ e ∈ entries, e.form = "10-K" ∧ e.fy = some y1) ∧
              (∃ e ∈ entries, e.form = "10-K" ∧ e.fy = some y2)) ∧
    (∀ entries : List SECEntry, 2 ≤ (annualEps entries).length →
        fetch_sec_edgar_eps_increases entries =
          some (countAdjIncreases
            ((((sortDesc ((annualEps entries).map Prod.fst)).take 12).reverse).map
              (fun y => (lookupYear (annualEps entries) y).getD 0)))) := by
  refine ⟨?_, ?_, ?_⟩
  · intro entries e y hmem hform hfy
    obtain ⟨s, t, rfl⟩ := List.append_of_mem hmem
    unfold annualEps
    rw [List.foldl_append, List.foldl_cons]
    obtain ⟨w, hw, hvw⟩ :=
      lookupYear_updateAnnualEps_self (List.foldl updateAnnualEps [] s) e hform hfy
    obtain ⟨w2, hw2, hww2⟩ := lookupYear_foldl_mono t _ y w hw
    exact ⟨w2, hw2, le_trans hvw hww2⟩
  · intro entries
    have hiff : fetch_sec_edgar_eps_increases entries = none ↔
        (annualEps entries).length < 2 := by
      constructor
      · intro h
        by_contra hlt
        simp only [fetch_sec_edgar_eps_increases] at h
        rw [if_neg hlt] at h
        cases h
      · intro h
        simp only [fetch_sec_edgar_eps_increases]
        rw [if_pos h]
    rw [hiff]
    constructor
    · rintro hlt ⟨y1, y2, hne, h1, h2⟩
      have hk1 : y1 ∈ (annualEps entries).map Prod.fst :=
        (lookupYear_isSome_iff _ _).mp
          ((lookupYear_foldl_isSome entries [] y1).mpr (Or.inr h1))
      have hk2 : y2 ∈ (annualEps entries).map Prod.fst :=
        (lookupYear_isSome_iff _ _).mp
          ((lookupYear_foldl_isSome entries [] y2).mpr (Or.inr h2))
      have hlen2 := two_le_length_of_mem hk1 hk2 hne
      rw [List.length_map] at hlen2
      omega
    · intro hno
      by_contra hlt
      rw [not_lt] at hlt
      have hnd : ((annualEps entries).map Prod.fst).Nodup :=
        nodup_keys_foldl entries [] (by simp)
      have hlen2 : 2 ≤ ((annualEps entries).map Prod.fst).length := by
        rw [List.length_map]; exact hlt
      obtain ⟨y1, y2, hm1, hm2, hne⟩ := exists_two_distinct hnd hlen2
      have h1 := (lookupYear_foldl_isSome entries [] y1).mp
        ((lookupYear_isSome_iff _ _).mpr hm1)
      have h2 := (lookupYear_foldl_isSome entries [] y2).mp
        ((lookupYear_isSome_iff _ _).mpr hm2)
      rcases h1 with h1 | h1
      · exact absurd h1 (by simp [lookupYear])
      rcases h2 with h2 | h2
      · exact absurd h2 (by simp [lookupYear])
      exact hno ⟨y1, y2, hne, h1, h2⟩
  · intro entries hlen
    simp only [fetch_sec_edgar_eps_increases]
    rw [if_neg (not_lt.mpr hlen)]
    congr 1
    rw [descPairCount_eq_reverse, List.map_reverse]

/-- Witness for C10: two clean 10-K fiscal years 2020 and 2021 (values 1
then 2) and a 10-Q entry that is dropped give one chronological increase. -/
theorem sec_edgar_eps_processing_witness :
    fetch_sec_edgar_eps_increases demoEntries = some 1 := by
  have hann : annualEps demoEntries = [(2020, 1), (2021, 2)] := by
    norm_num +decide [annualEps, demoEntries, updateAnnualEps, insertAnnual, lookupYear]
  have hlen : 2 ≤ (annualEps demoEntries).length := by rw [hann]; norm_num
  have h := sec_edgar_eps_processing.2.2 demoEntries hlen
  rw [h, hann]
  have hkeys : ([((2020 : Nat), (1 : ℚ)), (2021, 2)].map Prod.fst) = [2020, 2021] := rfl
  rw [hkeys]
  have hsort : sortDesc [2020, 2021] = [2021, 2020] := by
    norm_num +decide [sortDesc, insertDesc]
  rw [hsort, List.take_of_length_le (by norm_num)]
  norm_num +decide [lookupYear, countAdjIncreases]
